import Mathlib

/-!
Verification of the enrollment-and-matching engine of
`src/services/flask_backend.py` (face-sense-registrar).

The engine keeps an insertion-ordered mapping `students_data` from a
student id to a record `{id, name, descriptors}`, where each descriptor
is a face embedding.  `find_best_match` linearly scans every stored
descriptor of every student, computes its distance to a probe encoding,
and keeps the strictly best candidate below both the running best
distance (seeded at `1.0`) and a caller threshold.  `register_student`
inserts or fully replaces a student's entry, rejecting an enrollment
with zero usable descriptors.  `recognize_faces` applies
`find_best_match` to each probe encoding and keeps the successful
results in probe order.  `get_students` lists ids and names.

Embeddings are modelled as lists of rationals.  The distance
computation itself is performed in the Python code by the external
`face_recognition.face_distance` library call (Euclidean distance,
outside this repository), so the development is parameterised by an
arbitrary metric `dist : Embedding → Embedding → ℚ`; every theorem
below holds for any such metric, hence in particular for the Euclidean
one.  The Python dict is modelled as an insertion-ordered association
list: assigning to an existing key replaces the value in place (as
Python dicts do), assigning a new key appends.
-/

/-- A face embedding: a fixed-length numeric vector
(`face_encodings[0].tolist()` in the Python source). -/
abbrev Embedding := List ℚ

/-- An abstract distance metric standing for the external
`face_recognition.face_distance` call. -/
abbrev Metric := Embedding → Embedding → ℚ

/-- The per-student record stored in `students_data`
(`{"id": ..., "name": ..., "descriptors": ...}`). -/
structure Student where
  id : String
  name : String
  descriptors : List Embedding
deriving Repr, DecidableEq

/-- The `students_data` dict: an insertion-ordered association list from
student id to student record. -/
abbrev Store := List (String × Student)

/-- The match dict built by `find_best_match`:
`{"studentId": ..., "studentName": ..., "similarity": 1 - distance}`. -/
structure MatchResult where
  studentId : String
  studentName : String
  similarity : ℚ
deriving Repr, DecidableEq

/-- Python dict assignment `students_data[student_id] = student`:
replace the value in place when the key is present, append otherwise. -/
def storeInsert (students_data : Store) (student_id : String)
    (student : Student) : Store :=
  if students_data.any (fun p => p.1 = student_id) then
    students_data.map (fun p => if p.1 = student_id then (student_id, student) else p)
  else
    students_data ++ [(student_id, student)]

/-- `find_best_match(face_encoding, threshold)` from the source: return
`None` on an empty gallery, otherwise scan every descriptor of every
student in insertion order, updating the `(best_distance, best_match)`
accumulator (seeded at `(1.0, None)`) whenever a distance is strictly
below both the current best and the threshold. -/
def find_best_match (dist : Metric) (students_data : Store)
    (face_encoding : Embedding) (threshold : ℚ) : Option MatchResult :=
  if students_data.isEmpty then
    none
  else
    (students_data.foldl
      (fun acc p =>
        p.2.descriptors.foldl
          (fun acc descriptor =>
            let d := dist descriptor face_encoding
            if d < acc.1 ∧ d < threshold then
              (d, some ⟨p.1, p.2.name, 1 - d⟩)
            else
              acc)
          acc)
      ((1 : ℚ), (none : Option MatchResult))).2

/-- The store-mutation core of `register_student`, taken at the point
where the face descriptors have already been extracted from the images
by the external `face_recognition` capability: reject when the id or
name is missing or when no usable descriptor was extracted, otherwise
store `{"id": student_id, "name": name, "descriptors": descriptors}`
under `student_id`. `none` models the early-return error responses. -/
def register_student (students_data : Store) (student_id name : String)
    (descriptors : List Embedding) : Option Store :=
  if student_id.isEmpty ∨ name.isEmpty then
    none
  else if descriptors.isEmpty then
    none
  else
    some (storeInsert students_data student_id ⟨student_id, name, descriptors⟩)

/-- The effect of one `register_student` request on the global
`students_data`: on rejection the early return leaves the store
untouched (`false` = failure response), on success the store is
updated (`true` = success response). -/
def register_student_apply (students_data : Store) (student_id name : String)
    (descriptors : List Embedding) : Store × Bool :=
  match register_student students_data student_id name descriptors with
  | none => (students_data, false)
  | some st => (st, true)

/-- The recognition core of `recognize_faces`: apply `find_best_match`
with the source's default threshold `0.6` to each probe encoding and
append the truthy (non-`None`) results in probe order. -/
def recognize_faces (dist : Metric) (students_data : Store)
    (face_encodings : List Embedding) : List MatchResult :=
  face_encodings.foldl
    (fun recognized e =>
      match find_best_match dist students_data e (6/10) with
      | some m => recognized ++ [m]
      | none => recognized)
    []

/-- `get_students`: the read-only `{id, name}` listing of
`students_data.values()`. -/
def get_students (students_data : Store) : List (String × String) :=
  students_data.map (fun p => (p.2.id, p.2.name))

/-- A scan candidate: the student id and name under which a stored
descriptor would be reported, together with its distance to the probe. -/
abbrev Cand := String × String × ℚ

/-- The flattened candidate list visited by `find_best_match`'s nested
loops, in iteration order. -/
def candidates (dist : Metric) (students_data : Store)
    (probe : Embedding) : List Cand :=
  students_data.flatMap
    (fun p => p.2.descriptors.map (fun e => (p.1, p.2.name, dist e probe)))

/-- The accumulator update of `find_best_match`'s inner loop, expressed
on a flattened candidate. -/
def scanStep (threshold : ℚ) (acc : ℚ × Option MatchResult) (c : Cand) :
    ℚ × Option MatchResult :=
  if c.2.2 < acc.1 ∧ c.2.2 < threshold then
    (c.2.2, some ⟨c.1, c.2.1, 1 - c.2.2⟩)
  else
    acc

/-- The `find_best_match` scan as a single fold over the flattened
candidate list. -/
def scanCands (threshold : ℚ) (acc : ℚ × Option MatchResult)
    (cs : List Cand) : ℚ × Option MatchResult :=
  cs.foldl (scanStep threshold) acc

/-- A concrete computable metric (squared Euclidean distance) used to
instantiate the abstract metric in concrete examples. -/
def sqDist (a b : Embedding) : ℚ :=
  ((a.zip b).map (fun p => (p.1 - p.2) * (p.1 - p.2))).sum

theorem scanCands_nil (threshold : ℚ) (acc : ℚ × Option MatchResult) :
    scanCands threshold acc [] = acc := rfl

theorem scanCands_cons (threshold : ℚ) (acc : ℚ × Option MatchResult)
    (c : Cand) (cs : List Cand) :
    scanCands threshold acc (c :: cs) =
      scanCands threshold (scanStep threshold acc c) cs := rfl

theorem scanCands_append (threshold : ℚ) (acc : ℚ × Option MatchResult)
    (cs ds : List Cand) :
    scanCands threshold acc (cs ++ ds) =
      scanCands threshold (scanCands threshold acc cs) ds := by
  simp [scanCands, List.foldl_append]

theorem candidates_nil (dist : Metric) (probe : Embedding) :
    candidates dist [] probe = [] := rfl

theorem candidates_cons (dist : Metric) (p : String × Student)
    (rest : Store) (probe : Embedding) :
    candidates dist (p :: rest) probe =
      p.2.descriptors.map (fun e => (p.1, p.2.name, dist e probe)) ++
        candidates dist rest probe := by
  simp [candidates]

theorem scanCands_map_descriptors (dist : Metric) (probe : Embedding)
    (threshold : ℚ) (sid nm : String) (ds : List Embedding)
    (acc : ℚ × Option MatchResult) :
    scanCands threshold acc (ds.map (fun e => (sid, nm, dist e probe))) =
      ds.foldl
        (fun acc descriptor =>
          let d := dist descriptor probe
          if d < acc.1 ∧ d < threshold then (d, some ⟨sid, nm, 1 - d⟩)
          else acc)
        acc := by
  simp [scanCands, List.foldl_map, scanStep]

theorem foldl_students_eq_scan (dist : Metric) (probe : Embedding)
    (threshold : ℚ) (students_data : Store) :
    ∀ acc : ℚ × Option MatchResult,
      students_data.foldl
        (fun acc p =>
          p.2.descriptors.foldl
            (fun acc descriptor =>
              let d := dist descriptor probe
              if d < acc.1 ∧ d < threshold then (d, some ⟨p.1, p.2.name, 1 - d⟩)
              else acc)
            acc)
        acc
      = scanCands threshold acc (candidates dist students_data probe) := by
  induction students_data with
  | nil => intro acc; rfl
  | cons p rest ih =>
      intro acc
      rw [List.foldl_cons, candidates_cons, scanCands_append,
        scanCands_map_descriptors, ih]

/-- The nested loops of `find_best_match` compute exactly the fold of
`scanStep` over the flattened candidate list. -/
theorem find_best_match_eq_scan (dist : Metric) (students_data : Store)
    (probe : Embedding) (threshold : ℚ) :
    find_best_match dist students_data probe threshold =
      (scanCands threshold ((1 : ℚ), none)
        (candidates dist students_data probe)).2 := by
  cases students_data with
  | nil => rfl
  | cons p rest =>
      rw [find_best_match, if_neg (by simp), foldl_students_eq_scan]

/-- Workhorse characterisation of the scan: a fold of `scanStep` either
never updates the accumulator, or ends exactly at some visited candidate
whose distance beat both the initial best distance and the threshold. -/
theorem scanCands_spec (threshold : ℚ) :
    ∀ (cs : List Cand) (acc : ℚ × Option MatchResult),
      scanCands threshold acc cs = acc ∨
      ∃ c ∈ cs, c.2.2 < acc.1 ∧ c.2.2 < threshold ∧
        scanCands threshold acc cs = (c.2.2, some ⟨c.1, c.2.1, 1 - c.2.2⟩) := by
  intro cs
  induction cs with
  | nil => intro acc; exact Or.inl rfl
  | cons c t ih =>
      intro acc
      rw [scanCands_cons]
      by_cases hc : c.2.2 < acc.1 ∧ c.2.2 < threshold
      · have hstep : scanStep threshold acc c =
            (c.2.2, some ⟨c.1, c.2.1, 1 - c.2.2⟩) := if_pos hc
        rcases ih (scanStep threshold acc c) with h | ⟨c', hc', hlt, hth, h⟩
        · exact Or.inr ⟨c, List.mem_cons_self c t, hc.1, hc.2, by rw [h, hstep]⟩
        · rw [hstep] at hlt
          exact Or.inr ⟨c', List.mem_cons_of_mem c hc',
            lt_trans hlt hc.1, hth, h⟩
      · have hstep : scanStep threshold acc c = acc := if_neg hc
        rw [hstep]
        rcases ih acc with h | ⟨c', hc', hlt, hth, h⟩
        · exact Or.inl h
        · exact Or.inr ⟨c', List.mem_cons_of_mem c hc', hlt, hth, h⟩

/-- Membership in the flattened candidate list corresponds exactly to a
stored descriptor of some enrolled student. -/
theorem mem_candidates (dist : Metric) (students_data : Store)
    (probe : Embedding) (c : Cand) :
    c ∈ candidates dist students_data probe ↔
      ∃ p ∈ students_data, ∃ e ∈ p.2.descriptors,
        c = (p.1, p.2.name, dist e probe) := by
  simp only [candidates, List.mem_flatMap, List.mem_map]
  constructor
  · rintro ⟨p, hp, e, he, rfl⟩
    exact ⟨p, hp, e, he, rfl⟩
  · rintro ⟨p, hp, e, he, rfl⟩
    exact ⟨p, hp, e, he, rfl⟩

/-- A candidate strictly below both the current best distance and the
threshold replaces the accumulator. -/
theorem scanStep_improves (threshold : ℚ) (acc : ℚ × Option MatchResult)
    (c : Cand) (h1 : c.2.2 < acc.1) (h2 : c.2.2 < threshold) :
    scanStep threshold acc c = (c.2.2, some ⟨c.1, c.2.1, 1 - c.2.2⟩) :=
  if_pos ⟨h1, h2⟩

/-- Once the best distance is `d`, candidates at distance `≥ d` leave the
accumulator untouched (strict comparison: ties never replace). -/
theorem scanCands_no_improvement (threshold d : ℚ) (m : Option MatchResult)
    (l : List Cand) (hafter : ∀ c ∈ l, d ≤ c.2.2) :
    scanCands threshold (d, m) l = (d, m) := by
  rcases scanCands_spec threshold l (d, m) with hs | ⟨c, hc, hlt, _, _⟩
  · exact hs
  · exact absurd hlt (not_lt.2 (hafter c hc))

/-- Whenever `find_best_match` returns a match, it is built from some
stored descriptor of some enrolled student whose distance to the probe
beat both the `1.0` accumulator seed and the threshold. -/
theorem find_best_match_some_spec (dist : Metric) (students_data : Store)
    (probe : Embedding) (threshold : ℚ) (m : MatchResult)
    (h : find_best_match dist students_data probe threshold = some m) :
    ∃ p ∈ students_data, ∃ e ∈ p.2.descriptors,
      m = ⟨p.1, p.2.name, 1 - dist e probe⟩ ∧
      dist e probe < 1 ∧ dist e probe < threshold := by
  rw [find_best_match_eq_scan] at h
  rcases scanCands_spec threshold (candidates dist students_data probe)
      ((1 : ℚ), none) with hs | ⟨c, hc, hlt, hth, hs⟩
  · rw [hs] at h
    exact absurd h (by simp)
  · rw [hs] at h
    obtain ⟨p, hp, e, he, hce⟩ := (mem_candidates dist students_data probe c).1 hc
    refine ⟨p, hp, e, he, ?_, ?_, ?_⟩
    · rw [← Option.some_inj.1 h, hce]
    · rw [hce] at hlt
      exact hlt
    · rw [hce] at hth
      exact hth

theorem sqDist_nonneg (a b : Embedding) : 0 ≤ sqDist a b := by
  rw [sqDist]
  refine List.sum_nonneg ?_
  intro x hx
  obtain ⟨p, _, rfl⟩ := List.mem_map.1 hx
  exact mul_self_nonneg _

/-- Claim C1: for every gallery state and probe, `find_best_match` with
any caller-supplied threshold never returns a match whose distance to
the probe is `≥ 1`: the winning stored descriptor's distance is strictly
below `min threshold 1`, because the best-distance accumulator is seeded
at `1.0`, so the effective cutoff is `min threshold 1` even when the
caller passes `threshold > 1`. -/
theorem find_best_match_effective_cutoff (dist : Metric)
    (students_data : Store) (probe : Embedding) (threshold : ℚ)
    (m : MatchResult)
    (h : find_best_match dist students_data probe threshold = some m) :
    ∃ p ∈ students_data, ∃ e ∈ p.2.descriptors,
      m = ⟨p.1, p.2.name, 1 - dist e probe⟩ ∧
      dist e probe < min threshold 1 := by
  obtain ⟨p, hp, e, he, hm, h1, hth⟩ :=
    find_best_match_some_spec dist students_data probe threshold m h
  exact ⟨p, hp, e, he, hm, lt_min hth h1⟩

theorem find_best_match_effective_cutoff_witness :
    ∃ p ∈ [("s1", (⟨"s1", "Alice", [[0]]⟩ : Student))],
      ∃ e ∈ p.2.descriptors,
        (⟨"s1", "Alice", 1⟩ : MatchResult) = ⟨p.1, p.2.name, 1 - sqDist e [0]⟩ ∧
        sqDist e [0] < min 2 1 :=
  find_best_match_effective_cutoff sqDist
    [("s1", ⟨"s1", "Alice", [[0]]⟩)] [0] 2 ⟨"s1", "Alice", 1⟩
    (by norm_num [find_best_match, sqDist])

/-- Claim C2: for every non-empty gallery and probe, if the minimum
distance between the probe and the enrolled descriptors is exactly the
threshold, `find_best_match` returns `None`: a candidate qualifies only
under strict inequality against the threshold, not `≤`. -/
theorem find_best_match_at_exact_threshold (dist : Metric)
    (students_data : Store) (probe : Embedding) (threshold : ℚ)
    (hne : students_data ≠ [])
    (hmin : ∃ p ∈ students_data, ∃ e ∈ p.2.descriptors,
      dist e probe = threshold)
    (hall : ∀ p ∈ students_data, ∀ e ∈ p.2.descriptors,
      threshold ≤ dist e probe) :
    find_best_match dist students_data probe threshold = none := by
  rw [find_best_match_eq_scan]
  rcases scanCands_spec threshold (candidates dist students_data probe)
      ((1 : ℚ), none) with hs | ⟨c, hc, _, hth, _⟩
  · rw [hs]
  · obtain ⟨p, hp, e, he, hce⟩ :=
      (mem_candidates dist students_data probe c).1 hc
    rw [hce] at hth
    exact absurd hth (not_lt.2 (hall p hp e he))

theorem find_best_match_at_exact_threshold_witness :
    find_best_match sqDist [("s1", (⟨"s1", "Alice", [[1]]⟩ : Student))]
      [0] 1 = none :=
  find_best_match_at_exact_threshold sqDist
    [("s1", ⟨"s1", "Alice", [[1]]⟩)] [0] 1
    (by simp)
    (by
      refine ⟨("s1", ⟨"s1", "Alice", [[1]]⟩), by simp, [1], by simp, ?_⟩
      norm_num [sqDist])
    (by
      intro p hp e he
      simp only [List.mem_singleton] at hp
      subst hp
      simp only [List.mem_singleton] at he
      subst he
      norm_num [sqDist])

/-- Claim C3: when the minimal qualifying distance is attained, the
first candidate attaining it in the deterministic iteration order
(subject insertion order, then descriptor insertion order within a
subject, i.e. the order of the flattened candidate list) wins every
tie: all candidates seen earlier are strictly farther, all candidates
seen later are no closer, and the result is exactly the first-seen
minimal candidate. Determinism across runs is immediate since
`find_best_match` is a function of the store, probe and threshold. -/
theorem find_best_match_first_seen_tie (dist : Metric)
    (students_data : Store) (probe : Embedding) (threshold d : ℚ)
    (l₁ l₂ : List Cand) (c₀ : Cand)
    (hsplit : candidates dist students_data probe = l₁ ++ c₀ :: l₂)
    (hd : c₀.2.2 = d) (hd1 : d < 1) (hdth : d < threshold)
    (hbefore : ∀ c ∈ l₁, d < c.2.2)
    (hafter : ∀ c ∈ l₂, d ≤ c.2.2) :
    find_best_match dist students_data probe threshold =
      some ⟨c₀.1, c₀.2.1, 1 - d⟩ := by
  rw [find_best_match_eq_scan, hsplit, scanCands_append]
  have hgt : d < (scanCands threshold ((1 : ℚ), none) l₁).1 := by
    rcases scanCands_spec threshold l₁ ((1 : ℚ), none)
        with hs | ⟨c, hc, _, _, hs⟩
    · rw [hs]
      exact hd1
    · rw [hs]
      exact hbefore c hc
  rw [scanCands_cons,
    scanStep_improves threshold _ c₀ (by rw [hd]; exact hgt)
      (by rw [hd]; exact hdth),
    hd, scanCands_no_improvement threshold d _ l₂ hafter]

theorem find_best_match_first_seen_tie_witness :
    find_best_match sqDist
      [("s1", (⟨"s1", "Alice", [[1/2]]⟩ : Student)),
        ("s2", (⟨"s2", "Bob", [[-1/2]]⟩ : Student))] [0] (6/10) =
      some ⟨"s1", "Alice", 1 - 1/4⟩ :=
  find_best_match_first_seen_tie sqDist
    [("s1", ⟨"s1", "Alice", [[1/2]]⟩), ("s2", ⟨"s2", "Bob", [[-1/2]]⟩)]
    [0] (6/10) (1/4) [] [("s2", "Bob", 1/4)] ("s1", "Alice", 1/4)
    (by norm_num [candidates, sqDist])
    (by norm_num)
    (by norm_num)
    (by norm_num)
    (by simp)
    (by
      intro c hc
      simp only [List.mem_singleton] at hc
      subst hc
      norm_num)

/-- Claim C7: whenever `find_best_match` returns a result (at most one
per probe, and only when a qualifying descriptor exists), its
similarity equals exactly `1 - distance` of the winning stored
descriptor and, for any nonnegative metric (as the Euclidean
`face_distance` is), lies in `[0, 1]`. -/
theorem find_best_match_similarity_bounds (dist : Metric)
    (students_data : Store) (probe : Embedding) (threshold : ℚ)
    (m : MatchResult)
    (hnn : ∀ a b : Embedding, 0 ≤ dist a b)
    (h : find_best_match dist students_data probe threshold = some m) :
    ∃ p ∈ students_data, ∃ e ∈ p.2.descriptors,
      m.similarity = 1 - dist e probe ∧
      0 ≤ m.similarity ∧ m.similarity ≤ 1 := by
  obtain ⟨p, hp, e, he, hm, h1, _⟩ :=
    find_best_match_some_spec dist students_data probe threshold m h
  refine ⟨p, hp, e, he, ?_, ?_, ?_⟩
  · rw [hm]
  · rw [hm]
    simp only [sub_nonneg]
    exact le_of_lt h1
  · rw [hm]
    have := hnn e probe
    simp only [sub_le_self_iff]
    exact this

theorem find_best_match_similarity_bounds_witness :
    ∃ p ∈ [("s1", (⟨"s1", "Alice", [[0]]⟩ : Student))],
      ∃ e ∈ p.2.descriptors,
        (⟨"s1", "Alice", 1⟩ : MatchResult).similarity = 1 - sqDist e [0] ∧
        0 ≤ (⟨"s1", "Alice", 1⟩ : MatchResult).similarity ∧
        (⟨"s1", "Alice", 1⟩ : MatchResult).similarity ≤ 1 :=
  find_best_match_similarity_bounds sqDist
    [("s1", ⟨"s1", "Alice", [[0]]⟩)] [0] (6/10) ⟨"s1", "Alice", 1⟩
    sqDist_nonneg
    (by norm_num [find_best_match, sqDist])

/-- Claim C9: against an empty gallery, `find_best_match` returns `None`
for every probe and every threshold, as a normal no-match result,
short-circuiting before any distance computation (the metric is never
applied). -/
theorem find_best_match_empty_gallery (dist : Metric) (probe : Embedding)
    (threshold : ℚ) :
    find_best_match dist [] probe threshold = none := rfl

theorem recognize_faces_foldl_filterMap (f : Embedding → Option MatchResult) :
    ∀ (es : List Embedding) (acc : List MatchResult),
      es.foldl
        (fun recognized e =>
          match f e with
          | some m => recognized ++ [m]
          | none => recognized)
        acc
      = acc ++ es.filterMap f := by
  intro es
  induction es with
  | nil =>
      intro acc
      simp
  | cons e t ih =>
      intro acc
      rw [List.foldl_cons, List.filterMap_cons]
      cases hf : f e with
      | none =>
          exact ih acc
      | some m =>
          exact (ih (acc ++ [m])).trans (by simp)

/-- Claim C8: `recognize_faces` applies `find_best_match` (at the
source's default threshold `0.6`) independently to each probe encoding
and returns, in probe order, exactly the non-`None` results; no-match
probes are omitted rather than represented by placeholders, so the
output length is at most the input length. -/
theorem recognize_faces_filterMap_spec (dist : Metric)
    (students_data : Store) (face_encodings : List Embedding) :
    recognize_faces dist students_data face_encodings =
      face_encodings.filterMap
        (fun e => find_best_match dist students_data e (6/10)) ∧
    (recognize_faces dist students_data face_encodings).length ≤
      face_encodings.length := by
  have h := recognize_faces_foldl_filterMap
    (fun e => find_best_match dist students_data e (6/10)) face_encodings []
  rw [List.nil_append] at h
  have h' : recognize_faces dist students_data face_encodings =
      face_encodings.filterMap
        (fun e => find_best_match dist students_data e (6/10)) := h
  constructor
  · exact h'
  · rw [h']
    exact List.length_filterMap_le _ _

theorem storeInsert_mem_key (students_data : Store) (k : String)
    (v : Student) : (k, v) ∈ storeInsert students_data k v := by
  rw [storeInsert]
  split_ifs with h
  · obtain ⟨p, hp, hpk⟩ := List.any_eq_true.1 h
    refine List.mem_map.2 ⟨p, hp, ?_⟩
    rw [if_pos (of_decide_eq_true hpk)]
  · exact List.mem_append_right _ (List.mem_singleton.2 rfl)

theorem storeInsert_key_entry (students_data : Store) (k : String)
    (v : Student) :
    ∀ p ∈ storeInsert students_data k v, p.1 = k → p.2 = v := by
  intro p hp hpk
  rw [storeInsert] at hp
  split_ifs at hp with h
  · obtain ⟨q, hq, hqe⟩ := List.mem_map.1 hp
    by_cases hqk : q.1 = k
    · rw [if_pos hqk] at hqe
      rw [← hqe]
    · rw [if_neg hqk] at hqe
      rw [← hqe] at hpk
      exact absurd hpk hqk
  · rcases List.mem_append.1 hp with h1 | h2
    · exfalso
      apply h
      exact List.any_eq_true.2 ⟨p, h1, decide_eq_true hpk⟩
    · rw [List.mem_singleton.1 h2]

theorem mem_storeInsert (students_data : Store) (k : String) (v : Student) :
    ∀ p ∈ storeInsert students_data k v, p = (k, v) ∨ p ∈ students_data := by
  intro p hp
  rw [storeInsert] at hp
  split_ifs at hp with h
  · obtain ⟨q, hq, hqe⟩ := List.mem_map.1 hp
    by_cases hqk : q.1 = k
    · rw [if_pos hqk] at hqe
      exact Or.inl hqe.symm
    · rw [if_neg hqk] at hqe
      exact Or.inr (hqe ▸ hq)
  · rcases List.mem_append.1 hp with h1 | h2
    · exact Or.inr h1
    · exact Or.inl (List.mem_singleton.1 h2)

/-- Claim C4: a successful re-enrollment fully replaces the prior entry
for the subject id (last-write-wins, no merge): after enrolling `S`
with `[A]` and re-enrolling `S` with `[B]`, every entry of the store
under id `S` holds exactly the new record `⟨S, n₂, [B]⟩`, and when
`A ≠ B` the old descriptor `A` is no longer stored under `S`, so a
probe equal to `A` can no longer match `S` through `A`. -/
theorem register_student_replaces (students_data : Store)
    (S n₁ n₂ : String) (A B : Embedding) (st₁ st₂ : Store)
    (h₁ : register_student students_data S n₁ [A] = some st₁)
    (h₂ : register_student st₁ S n₂ [B] = some st₂) :
    (∃ p ∈ st₂, p.1 = S) ∧
    (∀ p ∈ st₂, p.1 = S → p.2 = ⟨S, n₂, [B]⟩) ∧
    (A ≠ B → ∀ p ∈ st₂, p.1 = S → A ∉ p.2.descriptors) := by
  rw [register_student] at h₂
  split_ifs at h₂ with hid
  have hst₂ : st₂ = storeInsert st₁ S ⟨S, n₂, [B]⟩ :=
    (Option.some_inj.1 h₂).symm
  subst hst₂
  refine ⟨⟨(S, ⟨S, n₂, [B]⟩), storeInsert_mem_key st₁ S _, rfl⟩, ?_, ?_⟩
  · exact storeInsert_key_entry st₁ S _
  · intro hAB p hp hpk
    rw [storeInsert_key_entry st₁ S _ p hp hpk]
    simp only [List.mem_singleton]
    exact hAB

theorem register_student_replaces_witness :
    (∃ p ∈ [("s", (⟨"s", "N2", [[1]]⟩ : Student))], p.1 = "s") ∧
    (∀ p ∈ [("s", (⟨"s", "N2", [[1]]⟩ : Student))], p.1 = "s" →
      p.2 = ⟨"s", "N2", [[1]]⟩) ∧
    (([0] : Embedding) ≠ [1] →
      ∀ p ∈ [("s", (⟨"s", "N2", [[1]]⟩ : Student))], p.1 = "s" →
        ([0] : Embedding) ∉ p.2.descriptors) :=
  register_student_replaces [] "s" "N1" "N2" [0] [1]
    [("s", ⟨"s", "N1", [[0]]⟩)] [("s", ⟨"s", "N2", [[1]]⟩)] rfl rfl

theorem register_student_apply_none (students_data : Store)
    (student_id name : String) (descriptors : List Embedding)
    (h : register_student students_data student_id name descriptors = none) :
    register_student_apply students_data student_id name descriptors =
      (students_data, false) := by
  show (match register_student students_data student_id name descriptors with
    | none => (students_data, false)
    | some st => (st, true)) = (students_data, false)
  rw [h]

theorem register_student_apply_some (students_data : Store)
    (student_id name : String) (descriptors : List Embedding) (st : Store)
    (h : register_student students_data student_id name descriptors = some st) :
    register_student_apply students_data student_id name descriptors =
      (st, true) := by
  show (match register_student students_data student_id name descriptors with
    | none => (students_data, false)
    | some st => (st, true)) = (st, true)
  rw [h]

/-- Claim C5: a `register_student` call with zero usable descriptors is
rejected (failure response, the subject is not enrolled) and the early
return leaves `students_data` completely unchanged: no empty entry is
stored and no existing entry is modified. -/
theorem register_student_zero_embeddings (students_data : Store)
    (student_id name : String) :
    register_student_apply students_data student_id name [] =
      (students_data, false) := by
  apply register_student_apply_none
  rw [register_student]
  split_ifs with h1 h2
  · rfl
  · rfl
  · exact absurd rfl h2

/-- The gallery invariant: every enrolled student holds at least one
descriptor. -/
def GalleryInv (students_data : Store) : Prop :=
  ∀ p ∈ students_data, p.2.descriptors ≠ []

/-- Claim C6: the initial (empty) gallery satisfies the invariant that
every stored subject has a non-empty descriptor sequence, and the only
store-changing operation, `register_student` (whether it succeeds or is
rejected), preserves it; the remaining operations (`find_best_match`,
`recognize_faces`, `get_students`) are read-only functions of the store
and produce no store at all, so no reachable store contains a subject
with zero descriptors. -/
theorem gallery_inv_preserved :
    GalleryInv ([] : Store) ∧
    ∀ (students_data : Store) (student_id name : String)
      (descriptors : List Embedding),
      GalleryInv students_data →
      GalleryInv
        (register_student_apply students_data student_id name
          descriptors).1 := by
  constructor
  · intro p hp
    simp at hp
  · intro store i n ds hinv
    cases hreg : register_student store i n ds with
    | none =>
        rw [register_student_apply_none store i n ds hreg]
        exact hinv
    | some st =>
        rw [register_student_apply_some store i n ds st hreg]
        rw [register_student] at hreg
        split_ifs at hreg with hid hemp
        have hst : st = storeInsert store i ⟨i, n, ds⟩ :=
          (Option.some_inj.1 hreg).symm
        subst hst
        intro p hp
        rcases mem_storeInsert store i _ p hp with h1 | h2
        · rw [h1]
          intro hds
          rw [List.isEmpty_iff] at hemp
          exact hemp hds
        · exact hinv p h2

theorem gallery_inv_preserved_witness :
    GalleryInv ((register_student_apply [] "s1" "Alice" [[0]]).1) :=
  gallery_inv_preserved.2 [] "s1" "Alice" [[0]] (by simp [GalleryInv])

theorem filter_map_replace (k : String) (v : Student)
    (students_data : Store) :
    (students_data.map
        (fun p => if p.1 = k then (k, v) else p)).filter
        (fun p => p.1 ≠ k) =
      students_data.filter (fun p => p.1 ≠ k) := by
  induction students_data with
  | nil => rfl
  | cons q rest ih =>
      by_cases hq : q.1 = k
      · simpa [hq] using ih
      · simpa [hq] using ih

/-- Claim C10: a successful `register_student` changes only the entry
for its own student id: the store, restricted to every other id, is
unchanged (same entries, same order, same names and descriptors).
`find_best_match` is modelled, as in the source, as a pure read of the
store: it returns only an `Option MatchResult` and no store, so it
cannot modify the gallery. -/
theorem register_student_frame (students_data : Store)
    (student_id name : String) (descriptors : List Embedding) (st : Store)
    (h : register_student students_data student_id name descriptors =
      some st) :
    st.filter (fun p => p.1 ≠ student_id) =
      students_data.filter (fun p => p.1 ≠ student_id) := by
  rw [register_student] at h
  split_ifs at h with hid hemp
  have hst : st =
      storeInsert students_data student_id ⟨student_id, name, descriptors⟩ :=
    (Option.some_inj.1 h).symm
  subst hst
  rw [storeInsert]
  split_ifs with hk
  · exact filter_map_replace student_id _ students_data
  · rw [List.filter_append]
    simp

theorem register_student_frame_witness :
    ([("a", (⟨"a", "A2", [[2]]⟩ : Student)),
        ("b", (⟨"b", "B", [[1]]⟩ : Student))] : Store).filter
        (fun p => p.1 ≠ "a") =
      ([("a", (⟨"a", "A", [[0]]⟩ : Student)),
          ("b", (⟨"b", "B", [[1]]⟩ : Student))] : Store).filter
        (fun p => p.1 ≠ "a") :=
  register_student_frame
    [("a", ⟨"a", "A", [[0]]⟩), ("b", ⟨"b", "B", [[1]]⟩)]
    "a" "A2" [[2]]
    [("a", ⟨"a", "A2", [[2]]⟩), ("b", ⟨"b", "B", [[1]]⟩)]
    rfl
